import Mathlib

/-!
Shallow embedding of the libbitcoin-node full node coordinator
(src/unnamed/part_001, `full_node.cpp`), its console executor
(src/console/executor.cpp, src/console/main.cpp) and the configuration
network selection (src/unnamed/part_000, `configuration.cpp`).

Pure control flow is embedded as functions from the inputs a call reads
(the stopped flag, the results the chain and network facades return) to
an event trace together with the updated node state.  The event trace
records, in call order, every observable call the code makes: handler
invocations, facade lifecycle calls, reservation-queue mutations,
subscriptions and cache updates.
-/

namespace LibbitcoinNode

/-- 32-byte block hash digest, modelled as a natural number. -/
abbrev Hash := Nat

/-- `checkpoint`: a `(hash, height)` pair identifying a block position. -/
structure Checkpoint where
  hash : Hash
  height : Nat
  deriving DecidableEq, Repr

/-- Error codes material to the node core.  `otherError` stands for every
error code other than `success`, `operation_failed` and `service_stopped`. -/
inductive Code where
  | success
  | operationFailed
  | serviceStopped
  | otherError
  deriving DecidableEq, Repr

namespace Reservations

/-- Modelled from the spec: the `reservations` queue class is not among the
sources; §4.1 describes it as a double-ended ordered container of
`(hash, height)` entries.  We model it as a list whose head is the front
(high-priority end) and whose last element is the back.
`push_front(hash, height)` inserts at the high-priority end. -/
def push_front (hash : Hash) (height : Nat) (q : List Checkpoint) :
    List Checkpoint :=
  ⟨hash, height⟩ :: q

/-- Modelled from the spec: `push_back(hash, height)` inserts at the
low-priority end (§4.1). -/
def push_back (hash : Hash) (height : Nat) (q : List Checkpoint) :
    List Checkpoint :=
  q ++ [⟨hash, height⟩]

/-- Modelled from the spec: `pop_back(header, height)` removes the entry at
`height` iff its hash matches `header.hash`; a no-op if the height/hash is
not at the tail position (§4.1). -/
def pop_back (hash : Hash) (height : Nat) (q : List Checkpoint) :
    List Checkpoint :=
  if q.getLast? = some ⟨hash, height⟩ then q.dropLast else q

end Reservations

/-- Observable calls made by the full node coordinator, in program order. -/
inductive Event where
  | chainStart
  | invokeHandler (ec : Code)
  | networkStart
  | setTopBlock (c : Checkpoint)
  | setTopHeader (c : Checkpoint)
  | pushFront (hash : Hash) (height : Nat)
  | pushBack (hash : Hash) (height : Nat)
  | popBack (hash : Hash) (height : Nat)
  | subscribeHeaders
  | subscribeBlocks
  | networkRun
  | stopCall
  | networkStop
  | chainStop
  | networkClose
  | chainClose
  | logError
  | logDebug
  deriving DecidableEq, Repr

/-- Number of times the result handler is invoked along a trace.  A
`networkStart` / `networkRun` event delegates the handler to the network
facade; modelled from the spec: the network facade invokes a delegated
handler exactly once (§4.3, §4.5). -/
def handlerCalls (tr : List Event) : Nat :=
  tr.countP fun e =>
    match e with
    | .invokeHandler _ => true
    | .networkStart => true
    | .networkRun => true
    | _ => false

/-- Queue-mutating events of a trace. -/
def isQueueOp : Event → Bool
  | .pushFront _ _ => true
  | .pushBack _ _ => true
  | .popBack _ _ => true
  | _ => false

/-- The mutable state of `full_node` visible to the embedded operations:
the stopped flag, the reservations queue (`reservations_`), and the cached
confirmed and candidate tops (`set_top_block` / `set_top_header`). -/
structure NodeState where
  stopped : Bool
  reservations : List Checkpoint
  top_block : Checkpoint
  top_header : Checkpoint
  deriving DecidableEq, Repr

/-- Results the blockchain facade (`chain_`, a libbitcoin-blockchain
collaborator outside these sources) returns to the calls `full_node`
makes: `get_top(out, candidate)` as an optional checkpoint (`none` models
the call returning `false`), `top_valid_candidate_state()->height()`, and
`get_downloadable(out, height)` as an optional hash. -/
structure ChainEnv where
  get_top : Bool → Option Checkpoint
  top_valid_height : Nat
  get_downloadable : Nat → Option Hash

namespace full_node

/-- `full_node::start` (src/unnamed/part_001 lines 64-83): refuse when the
node is not stopped, then start the chain, then delegate to `p2p::start`.
`stopped` is the value `stopped()` returns and `chainStartOk` the value
`chain_.start()` returns. -/
def start (stopped : Bool) (chainStartOk : Bool) : List Event :=
  if stopped = false then
    [.invokeHandler .operationFailed]
  else
    .chainStart ::
      (if chainStartOk = false then
        [.logError, .invokeHandler .operationFailed]
      else
        [.networkStart])

/-- `full_node::stop` (lines 265-280): stop the network, then the chain,
log each failure, return the conjunction. -/
def stop (netStopOk chainStopOk : Bool) : List Event × Bool :=
  ([.networkStop, .chainStop], netStopOk && chainStopOk)

/-- `full_node::close` (lines 283-301): invoke own `stop`; on failure
return false, otherwise close the network and the chain and return the
conjunction. -/
def close (netStopOk chainStopOk netCloseOk chainCloseOk : Bool) :
    List Event × Bool :=
  let s := stop netStopOk chainStopOk
  if s.2 = false then
    (s.1, false)
  else
    (s.1 ++ [.networkClose, .chainClose], netCloseOk && chainCloseOk)

/-- The pop loop of `full_node::handle_reindexed` (lines 196-198): for each
header of `outgoing` in reverse order, call `pop_back(*header, height--)`
(post-decrement: the call sees the current height).  Returns the
`(hash, height)` arguments of the successive `pop_back` calls. -/
def popLoop : List Hash → Nat → List (Hash × Nat)
  | [], _ => []
  | h :: rest, height => (h, height) :: popLoop rest (height - 1)

/-- The push loop of `full_node::handle_reindexed` (lines 200-202): for each
header of `incoming` in forward order, call `push_back(*header, ++height)`
(pre-increment: the call sees the incremented height).  Returns the
`(hash, height)` arguments of the successive `push_back` calls. -/
def pushLoop : List Hash → Nat → List (Hash × Nat)
  | [], _ => []
  | h :: rest, height => (h, height + 1) :: pushLoop rest (height + 1)

/-- `full_node::handle_reindexed` (lines 174-207).  Headers are modelled by
their hashes; a null `incoming` pointer behaves as the empty list.  Returns
the event trace, the updated node state and the subscription-continuation
flag. -/
def handle_reindexed (ec : Code) (fork_height : Nat)
    (incoming outgoing : List Hash) (st : NodeState) :
    List Event × NodeState × Bool :=
  if st.stopped || ec = .serviceStopped then
    ([], st, false)
  else if ec ≠ .success then
    ([.logError, .stopCall], st, false)
  else if incoming = [] then
    ([], st, true)
  else
    let pops := popLoop outgoing.reverse (fork_height + outgoing.length)
    let q1 := pops.foldl (fun q p => Reservations.pop_back p.1 p.2 q)
      st.reservations
    let pushes := pushLoop incoming fork_height
    let q2 := pushes.foldl (fun q p => Reservations.push_back p.1 p.2 q) q1
    let top : Checkpoint :=
      ⟨incoming.getLastD 0, fork_height + incoming.length⟩
    (pops.map (fun p => .popBack p.1 p.2)
       ++ pushes.map (fun p => .pushBack p.1 p.2)
       ++ [.setTopHeader top],
     { st with reservations := q2, top_header := top }, true)

/-- `full_node::handle_reorganized` (lines 210-239).  Blocks are modelled by
their hashes; the `outgoing` blocks are only logged at debug level.  Returns
the event trace, the updated node state and the subscription-continuation
flag. -/
def handle_reorganized (ec : Code) (fork_height : Nat)
    (incoming outgoing : List Hash) (st : NodeState) :
    List Event × NodeState × Bool :=
  if st.stopped || ec = .serviceStopped then
    ([], st, false)
  else if ec ≠ .success then
    ([.logError, .stopCall], st, false)
  else if incoming = [] then
    ([], st, true)
  else
    let top : Checkpoint :=
      ⟨incoming.getLastD 0, fork_height + incoming.length⟩
    ((outgoing.map fun _ => .logDebug) ++ [.setTopBlock top],
     { st with top_block := top }, true)

/-- The re-seed loop of `full_node::handle_running` (lines 153-155):
`for (height = candidate.height(); height > top_valid; --height)` push the
downloadable hash, or the current contents of the local `hash` variable
when `height == start_height` and `get_downloadable` failed (the local is
only overwritten on success).  `n` counts the remaining iterations, so the
current height is `top_valid + n`; `hash` is the local variable.  Returns
the `(hash, height)` arguments of the successive `push_front` calls. -/
def reseedCalls (env : ChainEnv) (top_valid : Nat) :
    Nat → Hash → List (Hash × Nat)
  | 0, _ => []
  | n + 1, hash =>
    let height := top_valid + (n + 1)
    match env.get_downloadable height with
    | some h => (h, height) :: reseedCalls env top_valid n h
    | none =>
      if height = top_valid + 1 then
        (hash, height) :: reseedCalls env top_valid n hash
      else
        reseedCalls env top_valid n hash

/-- `full_node::handle_running` (lines 100-171): guard on stopped and the
incoming code, fetch both tops (failing with `operation_failed` on a
corrupt chain), cache them, re-seed the reservations queue, subscribe the
two reorg handlers and delegate to `p2p::run`.  `hash0` is the
indeterminate initial contents of the local `hash` variable. -/
def handle_running (ec : Code) (env : ChainEnv) (st : NodeState)
    (hash0 : Hash) : List Event × NodeState :=
  if st.stopped then
    ([.invokeHandler .serviceStopped], st)
  else if ec ≠ .success then
    ([.logError, .invokeHandler ec], st)
  else
    match env.get_top false with
    | none => ([.logError, .invokeHandler .operationFailed], st)
    | some confirmed =>
      let st1 := { st with top_block := confirmed }
      match env.get_top true with
      | none =>
        ([.setTopBlock confirmed, .logError,
          .invokeHandler .operationFailed], st1)
      | some candidate =>
        let st2 := { st1 with top_header := candidate }
        let tv := env.top_valid_height
        let calls :=
          reseedCalls env tv (candidate.height - tv) hash0
        let q := calls.foldl
          (fun q p => Reservations.push_front p.1 p.2 q) st2.reservations
        (.setTopBlock confirmed :: .setTopHeader candidate ::
           calls.map (fun p => .pushFront p.1 p.2)
           ++ [.subscribeHeaders, .subscribeBlocks, .networkRun],
         { st2 with reservations := q })

/-- `full_node::run` (lines 89-98): fail with `service_stopped` when
stopped, otherwise continue with `handle_running(error::success, ...)`. -/
def run (env : ChainEnv) (st : NodeState) (hash0 : Hash) :
    List Event × NodeState :=
  if st.stopped then
    ([.invokeHandler .serviceStopped], st)
  else
    handle_running .success env st hash0

end full_node

/-- Outcome of `executor::handle_seeded` (src/console/executor.cpp lines
222-236): on a failing code it logs the start failure and raises the
static interrupt flag `stopped_`; on success it invokes `node_->run`. -/
structure SeedOutcome where
  logged_start_fail : Bool
  interrupt_flag : Bool
  ran : Bool
  deriving DecidableEq, Repr

/-- `executor::handle_seeded` (src/console/executor.cpp lines 222-236). -/
def handle_seeded (ec : Code) : SeedOutcome :=
  if ec ≠ .success then ⟨true, true, false⟩ else ⟨false, false, true⟩

/-- `executor::wait_on_stop` (src/console/executor.cpp lines 270-290):
blocks until the stop handler fulfils the promise with the code the node
stop delivered, then returns true iff that code is a success.  `stop_ec`
is the code `node_->stop(handler)` passes to the handler (delivered by the
network facade, outside these sources). -/
def wait_on_stop (stop_ec : Code) : Bool :=
  stop_ec = .success

/-- The value `executor::run` (src/console/executor.cpp lines 197-220)
returns on the path where the database directory exists and the node is
constructed: `node_->start` completes with `start_ec` (handled by
`handle_seeded`, which on failure only logs and raises the interrupt
flag), and the function then returns `wait_on_stop()`, whose result
depends only on the code the node stop handler delivers. -/
def executor_run_result (start_ec stop_ec : Code) : Bool :=
  let seeded := handle_seeded start_ec
  -- monitor_stop proceeds once the interrupt flag is raised or the node
  -- stopped; either way the promise is fulfilled with the stop code.
  let _ := seeded
  wait_on_stop stop_ec

/-- Exit status of `bc::main` on the run path (src/console/main.cpp line
122): `console_result::okay` (0) when the executor run returns true,
otherwise `console_result::failure` (non-zero). -/
def main_exit (start_ec stop_ec : Code) : Int :=
  if executor_run_result start_ec stop_ec then 0 else 1

/-- The network contexts a libbitcoin configuration can be initialized
for. -/
inductive NetContext where
  | mainnet
  | testnet
  | regtest
  deriving DecidableEq, Repr

/-- Network-context selection of `bc::main` (src/console/main.cpp lines
71-84): mainnet when neither flag is set, else testnet when the testnet
flag is set, else regtest.  `configured.init` is called exactly once with
the selected context. -/
def select_context (regtest testnet : Bool) : NetContext :=
  if regtest = false && testnet = false then .mainnet
  else if testnet then .testnet
  else .regtest

/-- The arguments of the `pop_back` calls recorded in a trace, in order. -/
def popBackCalls (tr : List Event) : List (Hash × Nat) :=
  tr.filterMap fun e =>
    match e with
    | .popBack h ht => some (h, ht)
    | _ => none

/-- The arguments of the `push_back` calls recorded in a trace, in order. -/
def pushBackCalls (tr : List Event) : List (Hash × Nat) :=
  tr.filterMap fun e =>
    match e with
    | .pushBack h ht => some (h, ht)
    | _ => none

/-- The heights of the `push_front` calls recorded in a trace, in order. -/
def pushFrontHeights (tr : List Event) : List Nat :=
  tr.filterMap fun e =>
    match e with
    | .pushFront _ ht => some ht
    | _ => none

namespace full_node

theorem popLoop_eq_zip (xs : List Hash) (a : Nat) :
    popLoop xs (a + xs.length)
      = xs.zip ((List.range' (a + 1) xs.length).reverse) := by
  induction xs generalizing a with
  | nil => simp [popLoop]
  | cons x t ih =>
    have h1 : a + (x :: t).length = (a + t.length) + 1 := by
      simp only [List.length_cons]
      omega
    rw [h1]
    have h2 : (a + t.length) + 1 - 1 = a + t.length := by omega
    have h3 : a + 1 + t.length = (a + t.length) + 1 := by omega
    simp only [popLoop, h2, List.length_cons, List.range'_1_concat,
      List.reverse_append, List.reverse_singleton, List.singleton_append,
      List.zip_cons_cons, h3]
    rw [ih a]

theorem pushLoop_eq_zip (xs : List Hash) (a : Nat) :
    pushLoop xs a = xs.zip (List.range' (a + 1) xs.length) := by
  induction xs generalizing a with
  | nil => simp [pushLoop]
  | cons x t ih =>
    simp only [pushLoop, List.length_cons, List.range'_succ,
      List.zip_cons_cons]
    rw [ih (a + 1)]

theorem pushLoop_getLast (xs : List Hash) (a : Nat) (h : xs ≠ []) :
    (pushLoop xs a).getLast? = some (xs.getLastD 0, a + xs.length) := by
  induction xs generalizing a with
  | nil => exact absurd rfl h
  | cons x t ih =>
    cases t with
    | nil => simp [pushLoop]
    | cons y u =>
      have hne : (y :: u : List Hash) ≠ [] := by simp
      have step : (pushLoop (x :: y :: u) a).getLast?
          = (pushLoop (y :: u) (a + 1)).getLast? := by
        simp only [pushLoop]
        rw [List.getLast?_cons_cons]
      rw [step, ih (a + 1) hne]
      have h1 : a + 1 + (y :: u).length = a + (x :: y :: u).length := by
        simp [List.length_cons]
        omega
      have h2 : ((y :: u : List Hash)).getLastD 0
          = ((x :: y :: u : List Hash)).getLastD 0 := by
        simp [List.getLastD_eq_getLast?]
      rw [h1, h2]

theorem foldl_push_back (calls : List (Hash × Nat)) (q : List Checkpoint) :
    calls.foldl (fun q p => Reservations.push_back p.1 p.2 q) q
      = q ++ calls.map (fun p => (⟨p.1, p.2⟩ : Checkpoint)) := by
  induction calls generalizing q with
  | nil => simp
  | cons c t ih =>
    rw [List.foldl_cons, ih]
    simp [Reservations.push_back, List.append_assoc]

theorem foldl_push_front (calls : List (Hash × Nat)) (q : List Checkpoint) :
    calls.foldl (fun q p => Reservations.push_front p.1 p.2 q) q
      = calls.reverse.map (fun p => (⟨p.1, p.2⟩ : Checkpoint)) ++ q := by
  induction calls generalizing q with
  | nil => simp
  | cons c t ih =>
    rw [List.foldl_cons, ih]
    simp [Reservations.push_front, List.append_assoc]

theorem getLast?_map {α β : Type} (f : α → β) (l : List α) :
    (l.map f).getLast? = l.getLast?.map f := by
  induction l with
  | nil => rfl
  | cons x t ih =>
    cases t with
    | nil => rfl
    | cons y u =>
      simp only [List.map_cons, List.getLast?_cons_cons]
      simpa using ih

theorem reseedCalls_heights (env : ChainEnv) (tv : Nat) (n : Nat)
    (hash : Hash) :
    (reseedCalls env tv n hash).map Prod.snd
      = ((List.range' (tv + 1) n).reverse).filter
          (fun h => (env.get_downloadable h).isSome || h == tv + 1) := by
  induction n generalizing hash with
  | zero => simp [reseedCalls]
  | succ n ih =>
    have harith : tv + 1 + n = tv + (n + 1) := by omega
    rw [List.range'_1_concat, List.reverse_append, List.reverse_singleton,
      List.singleton_append, List.filter_cons, harith]
    cases hd : env.get_downloadable (tv + (n + 1)) with
    | some h =>
      simp only [reseedCalls, hd, List.map_cons, ih, hd, Option.isSome_some,
        Bool.true_or, if_true]
    | none =>
      by_cases hn : n = 0
      · subst hn
        simp [reseedCalls, hd]
      · have hne : ¬ (tv + (n + 1) = tv + 1) := by omega
        have hbe : ((tv + (n + 1) : Nat) == tv + 1) = false := by
          simpa using hne
        simp only [reseedCalls, hd, if_neg hne, ih, Option.isSome_none,
          Bool.false_or, hbe, Bool.false_eq_true, if_false]

theorem reseedCalls_start_mem (env : ChainEnv) (tv : Nat) (n : Nat)
    (hash : Hash) (hn : 0 < n) :
    ∃ h, (h, tv + 1) ∈ reseedCalls env tv n hash := by
  have hmem : tv + 1 ∈ (reseedCalls env tv n hash).map Prod.snd := by
    rw [reseedCalls_heights]
    rw [List.mem_filter]
    constructor
    · rw [List.mem_reverse, List.mem_range'_1]
      omega
    · simp
  obtain ⟨p, hp, hsnd⟩ := List.mem_map.mp hmem
  exact ⟨p.1, by rwa [show ((p.1, tv + 1) : Hash × Nat) = p by
    cases p; simp_all]⟩

end full_node

/-- C3: full_node::start invokes the handler exactly once; when the node is
not stopped it fails with operation_failed without calling chain.start;
when chain.start fails it fails with operation_failed without starting
the network; otherwise it delegates to network.start (which invokes the
handler exactly once). -/
theorem start_invokes_handler_once (stopped chainStartOk : Bool) :
    handlerCalls (full_node.start stopped chainStartOk) = 1
    ∧ (Event.chainStart ∈ full_node.start stopped chainStartOk
        ↔ stopped = true)
    ∧ (Event.networkStart ∈ full_node.start stopped chainStartOk
        ↔ (stopped = true ∧ chainStartOk = true))
    ∧ (Event.invokeHandler .operationFailed
          ∈ full_node.start stopped chainStartOk
        ↔ (stopped = false ∨ chainStartOk = false)) := by
  cases stopped <;> cases chainStartOk <;> decide

/-- C6: a reorg-subscription handler receiving a non-success code always
unsubscribes (returns false); it calls stop() and logs exactly when the
node is not stopped and the code is not service_stopped. -/
theorem handler_error_unsubscribes (ec : Code) (fork : Nat)
    (incoming outgoing : List Hash) (st : NodeState)
    (hec : ec ≠ Code.success) :
    (full_node.handle_reindexed ec fork incoming outgoing st).2.2 = false
    ∧ (full_node.handle_reorganized ec fork incoming outgoing st).2.2 = false
    ∧ (Event.stopCall ∈ (full_node.handle_reindexed ec fork incoming outgoing st).1
        ↔ (st.stopped = false ∧ ec ≠ Code.serviceStopped))
    ∧ (Event.stopCall ∈ (full_node.handle_reorganized ec fork incoming outgoing st).1
        ↔ (st.stopped = false ∧ ec ≠ Code.serviceStopped))
    ∧ (st.stopped = false → ec ≠ Code.serviceStopped →
        Event.logError ∈ (full_node.handle_reindexed ec fork incoming outgoing st).1
        ∧ Event.logError
            ∈ (full_node.handle_reorganized ec fork incoming outgoing st).1) := by
  cases hst : st.stopped <;> cases ec <;>
    simp_all [full_node.handle_reindexed, full_node.handle_reorganized]

/-- C6 witness: a concrete handler invocation with a generic error on a
running node calls stop and unsubscribes. -/
theorem handler_error_unsubscribes_witness :
    Code.otherError ≠ Code.success
    ∧ ((full_node.handle_reindexed .otherError 5 [1] [] ⟨false, [], ⟨0, 0⟩, ⟨0, 0⟩⟩).2.2
          = false
      ∧ (full_node.handle_reorganized .otherError 5 [1] []
            ⟨false, [], ⟨0, 0⟩, ⟨0, 0⟩⟩).2.2 = false
      ∧ (Event.stopCall
            ∈ (full_node.handle_reindexed .otherError 5 [1] []
                ⟨false, [], ⟨0, 0⟩, ⟨0, 0⟩⟩).1
          ↔ ((⟨false, [], ⟨0, 0⟩, ⟨0, 0⟩⟩ : NodeState).stopped = false
              ∧ Code.otherError ≠ Code.serviceStopped))
      ∧ (Event.stopCall
            ∈ (full_node.handle_reorganized .otherError 5 [1] []
                ⟨false, [], ⟨0, 0⟩, ⟨0, 0⟩⟩).1
          ↔ ((⟨false, [], ⟨0, 0⟩, ⟨0, 0⟩⟩ : NodeState).stopped = false
              ∧ Code.otherError ≠ Code.serviceStopped))
      ∧ ((⟨false, [], ⟨0, 0⟩, ⟨0, 0⟩⟩ : NodeState).stopped = false →
          Code.otherError ≠ Code.serviceStopped →
          Event.logError
              ∈ (full_node.handle_reindexed .otherError 5 [1] []
                  ⟨false, [], ⟨0, 0⟩, ⟨0, 0⟩⟩).1
          ∧ Event.logError
              ∈ (full_node.handle_reorganized .otherError 5 [1] []
                  ⟨false, [], ⟨0, 0⟩, ⟨0, 0⟩⟩).1)) :=
  ⟨by decide,
   handler_error_unsubscribes .otherError 5 [1] []
     ⟨false, [], ⟨0, 0⟩, ⟨0, 0⟩⟩ (by decide)⟩

theorem popBackCalls_append (t1 t2 : List Event) :
    popBackCalls (t1 ++ t2) = popBackCalls t1 ++ popBackCalls t2 := by
  simp [popBackCalls]

theorem pushBackCalls_append (t1 t2 : List Event) :
    pushBackCalls (t1 ++ t2) = pushBackCalls t1 ++ pushBackCalls t2 := by
  simp [pushBackCalls]

theorem popBackCalls_map_popBack (l : List (Hash × Nat)) :
    popBackCalls (l.map fun p => Event.popBack p.1 p.2) = l := by
  induction l with
  | nil => rfl
  | cons p t ih =>
    simp only [popBackCalls, List.map_cons, List.filterMap_cons] at ih ⊢
    rw [ih]

theorem popBackCalls_map_pushBack (l : List (Hash × Nat)) :
    popBackCalls (l.map fun p => Event.pushBack p.1 p.2) = [] := by
  induction l with
  | nil => rfl
  | cons p t ih =>
    simp only [popBackCalls, List.map_cons, List.filterMap_cons] at ih ⊢
    exact ih

theorem pushBackCalls_map_popBack (l : List (Hash × Nat)) :
    pushBackCalls (l.map fun p => Event.popBack p.1 p.2) = [] := by
  induction l with
  | nil => rfl
  | cons p t ih =>
    simp only [pushBackCalls, List.map_cons, List.filterMap_cons] at ih ⊢
    exact ih

theorem pushBackCalls_map_pushBack (l : List (Hash × Nat)) :
    pushBackCalls (l.map fun p => Event.pushBack p.1 p.2) = l := by
  induction l with
  | nil => rfl
  | cons p t ih =>
    simp only [pushBackCalls, List.map_cons, List.filterMap_cons] at ih ⊢
    rw [ih]

/-- C1: on a successful header reindex with non-empty incoming, the
handler pops the outgoing headers in reverse order at descending heights
fork_height + outgoing.len .. fork_height + 1, then pushes the incoming
headers in forward order at ascending heights fork_height + 1 ..
fork_height + incoming.len; afterwards the queue tail entry has height
fork_height + incoming.len and the cached candidate top is
(incoming.back.hash, fork_height + incoming.len). -/
theorem reindexed_queue_update (fork : Nat) (incoming outgoing : List Hash)
    (st : NodeState) (hst : st.stopped = false) (hne : incoming ≠ []) :
    popBackCalls (full_node.handle_reindexed .success fork incoming
        outgoing st).1
      = outgoing.reverse.zip ((List.range' (fork + 1) outgoing.length).reverse)
    ∧ pushBackCalls (full_node.handle_reindexed .success fork incoming
        outgoing st).1
      = incoming.zip (List.range' (fork + 1) incoming.length)
    ∧ ((full_node.handle_reindexed .success fork incoming outgoing
          st).2.1.reservations.getLast?).map Checkpoint.height
      = some (fork + incoming.length)
    ∧ (full_node.handle_reindexed .success fork incoming outgoing
          st).2.1.top_header
      = ⟨incoming.getLastD 0, fork + incoming.length⟩ := by
  have hpop := full_node.popLoop_eq_zip outgoing.reverse fork
  rw [List.length_reverse] at hpop
  have hpush := full_node.pushLoop_eq_zip incoming fork
  have hplast := full_node.pushLoop_getLast incoming fork hne
  have hpushne : full_node.pushLoop incoming fork ≠ [] := by
    cases incoming with
    | nil => exact absurd rfl hne
    | cons x t => simp [full_node.pushLoop]
  refine ⟨?_, ?_, ?_, ?_⟩
  · simp only [full_node.handle_reindexed, hst, Bool.false_or]
    rw [if_neg (by decide), if_neg (by simp), if_neg hne]
    rw [popBackCalls_append, popBackCalls_append, popBackCalls_map_popBack,
      popBackCalls_map_pushBack, hpop]
    simp [popBackCalls]
  · simp only [full_node.handle_reindexed, hst, Bool.false_or]
    rw [if_neg (by decide), if_neg (by simp), if_neg hne]
    rw [pushBackCalls_append, pushBackCalls_append,
      pushBackCalls_map_popBack, pushBackCalls_map_pushBack, hpush]
    simp [pushBackCalls]
  · simp only [full_node.handle_reindexed, hst, Bool.false_or]
    rw [if_neg (by decide), if_neg (by simp), if_neg hne]
    simp only [full_node.foldl_push_back]
    rw [List.getLast?_append_of_ne_nil _ (by simpa using hpushne)]
    rw [full_node.getLast?_map, hplast]
    rfl
  · simp only [full_node.handle_reindexed, hst, Bool.false_or]
    rw [if_neg (by decide), if_neg (by simp), if_neg hne]

/-- C1 witness: the two-block reorg of spec scenario S3. -/
theorem reindexed_queue_update_witness :
    ((⟨false, [⟨81, 199⟩, ⟨82, 200⟩], ⟨0, 0⟩, ⟨0, 0⟩⟩ : NodeState).stopped
        = false)
    ∧ ([91, 92, 93] : List Hash) ≠ []
    ∧ (popBackCalls (full_node.handle_reindexed .success 198 [91, 92, 93]
          [81, 82] ⟨false, [⟨81, 199⟩, ⟨82, 200⟩], ⟨0, 0⟩, ⟨0, 0⟩⟩).1
        = ([81, 82] : List Hash).reverse.zip
            ((List.range' (198 + 1) ([81, 82] : List Hash).length).reverse)
      ∧ pushBackCalls (full_node.handle_reindexed .success 198 [91, 92, 93]
          [81, 82] ⟨false, [⟨81, 199⟩, ⟨82, 200⟩], ⟨0, 0⟩, ⟨0, 0⟩⟩).1
        = ([91, 92, 93] : List Hash).zip
            (List.range' (198 + 1) ([91, 92, 93] : List Hash).length)
      ∧ ((full_node.handle_reindexed .success 198 [91, 92, 93] [81, 82]
            ⟨false, [⟨81, 199⟩, ⟨82, 200⟩], ⟨0, 0⟩,
              ⟨0, 0⟩⟩).2.1.reservations.getLast?).map Checkpoint.height
        = some (198 + ([91, 92, 93] : List Hash).length)
      ∧ (full_node.handle_reindexed .success 198 [91, 92, 93] [81, 82]
            ⟨false, [⟨81, 199⟩, ⟨82, 200⟩], ⟨0, 0⟩, ⟨0, 0⟩⟩).2.1.top_header
        = ⟨([91, 92, 93] : List Hash).getLastD 0,
            198 + ([91, 92, 93] : List Hash).length⟩) :=
  ⟨rfl, by decide,
   reindexed_queue_update 198 [91, 92, 93] [81, 82]
     ⟨false, [⟨81, 199⟩, ⟨82, 200⟩], ⟨0, 0⟩, ⟨0, 0⟩⟩ rfl (by decide)⟩

/-- C5: on a successful block reorg the handler stays subscribed; with
non-empty incoming it only updates the cached confirmed top to
(incoming.back.hash, fork_height + incoming.len), leaving the
reservations queue untouched (no queue operation appears in the trace);
with empty incoming the state is unchanged. -/
theorem reorganized_frame (fork : Nat) (incoming outgoing : List Hash)
    (st : NodeState) (hst : st.stopped = false) :
    (full_node.handle_reorganized .success fork incoming outgoing st).2.1
      = (if incoming = [] then st
         else { st with
                 top_block := ⟨incoming.getLastD 0,
                   fork + incoming.length⟩ })
    ∧ (full_node.handle_reorganized .success fork incoming outgoing
          st).2.1.reservations = st.reservations
    ∧ (full_node.handle_reorganized .success fork incoming outgoing st).2.2
        = true
    ∧ ((full_node.handle_reorganized .success fork incoming outgoing
          st).1.filter isQueueOp) = [] := by
  by_cases h : incoming = [] <;>
    simp [full_node.handle_reorganized, hst, h, isQueueOp]

/-- C5 witness: the single-block extension of spec scenario S2. -/
theorem reorganized_frame_witness :
    ((⟨false, [], ⟨0, 100⟩, ⟨0, 100⟩⟩ : NodeState).stopped = false)
    ∧ ((full_node.handle_reorganized .success 100 [7] []
          ⟨false, [], ⟨0, 100⟩, ⟨0, 100⟩⟩).2.1
        = (if ([7] : List Hash) = [] then
            (⟨false, [], ⟨0, 100⟩, ⟨0, 100⟩⟩ : NodeState)
          else { (⟨false, [], ⟨0, 100⟩, ⟨0, 100⟩⟩ : NodeState) with
                  top_block := ⟨([7] : List Hash).getLastD 0,
                    100 + ([7] : List Hash).length⟩ })
      ∧ (full_node.handle_reorganized .success 100 [7] []
            ⟨false, [], ⟨0, 100⟩, ⟨0, 100⟩⟩).2.1.reservations
        = (⟨false, [], ⟨0, 100⟩, ⟨0, 100⟩⟩ : NodeState).reservations
      ∧ (full_node.handle_reorganized .success 100 [7] []
            ⟨false, [], ⟨0, 100⟩, ⟨0, 100⟩⟩).2.2 = true
      ∧ ((full_node.handle_reorganized .success 100 [7] []
            ⟨false, [], ⟨0, 100⟩, ⟨0, 100⟩⟩).1.filter isQueueOp) = []) :=
  ⟨rfl,
   reorganized_frame 100 [7] [] ⟨false, [], ⟨0, 100⟩, ⟨0, 100⟩⟩ rfl⟩

/-- C4: when either chain.get_top call fails during run, the handler is
invoked (exactly once) with operation_failed, no header or block
subscription is registered, network.run is not called, and the
reservations queue is unchanged. -/
theorem run_get_top_failure (env : ChainEnv) (st : NodeState) (hash0 : Hash)
    (hst : st.stopped = false)
    (hfail : env.get_top false = none ∨ env.get_top true = none) :
    Event.invokeHandler .operationFailed ∈ (full_node.run env st hash0).1
    ∧ handlerCalls (full_node.run env st hash0).1 = 1
    ∧ Event.subscribeHeaders ∉ (full_node.run env st hash0).1
    ∧ Event.subscribeBlocks ∉ (full_node.run env st hash0).1
    ∧ Event.networkRun ∉ (full_node.run env st hash0).1
    ∧ (full_node.run env st hash0).2.reservations = st.reservations := by
  rcases hfail with h | h
  · simp [full_node.run, full_node.handle_running, hst, h, handlerCalls]
  · cases hc : env.get_top false with
    | none =>
      simp [full_node.run, full_node.handle_running, hst, hc, handlerCalls]
    | some c =>
      simp [full_node.run, full_node.handle_running, hst, hc, h,
        handlerCalls]

/-- C4 witness: a chain whose confirmed get_top fails (spec scenario
S5). -/
theorem run_get_top_failure_witness :
    ((⟨false, [⟨1, 1⟩], ⟨0, 0⟩, ⟨0, 0⟩⟩ : NodeState).stopped = false)
    ∧ ((⟨fun _ => none, 0, fun _ => none⟩ : ChainEnv).get_top false = none
        ∨ (⟨fun _ => none, 0, fun _ => none⟩ : ChainEnv).get_top true = none)
    ∧ (Event.invokeHandler .operationFailed
          ∈ (full_node.run ⟨fun _ => none, 0, fun _ => none⟩
              ⟨false, [⟨1, 1⟩], ⟨0, 0⟩, ⟨0, 0⟩⟩ 0).1
      ∧ handlerCalls (full_node.run ⟨fun _ => none, 0, fun _ => none⟩
            ⟨false, [⟨1, 1⟩], ⟨0, 0⟩, ⟨0, 0⟩⟩ 0).1 = 1
      ∧ Event.subscribeHeaders
          ∉ (full_node.run ⟨fun _ => none, 0, fun _ => none⟩
              ⟨false, [⟨1, 1⟩], ⟨0, 0⟩, ⟨0, 0⟩⟩ 0).1
      ∧ Event.subscribeBlocks
          ∉ (full_node.run ⟨fun _ => none, 0, fun _ => none⟩
              ⟨false, [⟨1, 1⟩], ⟨0, 0⟩, ⟨0, 0⟩⟩ 0).1
      ∧ Event.networkRun
          ∉ (full_node.run ⟨fun _ => none, 0, fun _ => none⟩
              ⟨false, [⟨1, 1⟩], ⟨0, 0⟩, ⟨0, 0⟩⟩ 0).1
      ∧ (full_node.run ⟨fun _ => none, 0, fun _ => none⟩
            ⟨false, [⟨1, 1⟩], ⟨0, 0⟩, ⟨0, 0⟩⟩ 0).2.reservations
        = (⟨false, [⟨1, 1⟩], ⟨0, 0⟩, ⟨0, 0⟩⟩ : NodeState).reservations) :=
  ⟨rfl, Or.inl rfl,
   run_get_top_failure ⟨fun _ => none, 0, fun _ => none⟩
     ⟨false, [⟨1, 1⟩], ⟨0, 0⟩, ⟨0, 0⟩⟩ 0 rfl (Or.inl rfl)⟩

theorem pushFrontHeights_of_trace (pre : List Event)
    (calls : List (Hash × Nat)) (post : List Event)
    (hpre : pushFrontHeights pre = []) (hpost : pushFrontHeights post = []) :
    pushFrontHeights (pre ++ (calls.map fun p => Event.pushFront p.1 p.2)
        ++ post)
      = calls.map Prod.snd := by
  have hmap : pushFrontHeights (calls.map fun p => Event.pushFront p.1 p.2)
      = calls.map Prod.snd := by
    induction calls with
    | nil => rfl
    | cons p t ih =>
      simp only [pushFrontHeights, List.map_cons, List.filterMap_cons]
        at ih ⊢
      rw [ih]
  simp only [pushFrontHeights, List.filterMap_append] at hpre hpost hmap ⊢
  rw [hpre, hpost, hmap]
  simp

/-- C2: during a successful run, the re-seed loop calls
reservations.push_front exactly for the heights h with
top_valid < h and h <= candidate.height such that chain.get_downloadable
succeeds at h or h equals top_valid + 1, iterating from candidate.height
down to top_valid + 1. -/
theorem reseed_push_front_heights (env : ChainEnv) (st : NodeState)
    (hash0 : Hash) (confirmed candidate : Checkpoint)
    (hst : st.stopped = false)
    (hc : env.get_top false = some confirmed)
    (hk : env.get_top true = some candidate) :
    pushFrontHeights (full_node.run env st hash0).1
      = ((List.range' (env.top_valid_height + 1)
            (candidate.height - env.top_valid_height)).reverse).filter
          (fun h => (env.get_downloadable h).isSome
             || h == env.top_valid_height + 1) := by
  have htr : (full_node.run env st hash0).1
      = [Event.setTopBlock confirmed, Event.setTopHeader candidate]
        ++ ((full_node.reseedCalls env env.top_valid_height
              (candidate.height - env.top_valid_height) hash0).map
            fun p => Event.pushFront p.1 p.2)
        ++ [Event.subscribeHeaders, Event.subscribeBlocks,
            Event.networkRun] := by
    simp [full_node.run, full_node.handle_running, hst, hc, hk]
  rw [htr, pushFrontHeights_of_trace]
  · rw [full_node.reseedCalls_heights]
  · rfl
  · rfl

/-- C2 witness: candidate height 3, top_valid 1, only height 3
downloadable; heights 3 and 2 are pushed, in that order. -/
theorem reseed_push_front_heights_witness :
    ((⟨false, [], ⟨0, 0⟩, ⟨0, 0⟩⟩ : NodeState).stopped = false)
    ∧ ((⟨fun b => some (if b then ⟨10, 3⟩ else ⟨9, 2⟩), 1,
          fun h => if h = 3 then some 33 else none⟩ : ChainEnv).get_top false
        = some ⟨9, 2⟩)
    ∧ ((⟨fun b => some (if b then ⟨10, 3⟩ else ⟨9, 2⟩), 1,
          fun h => if h = 3 then some 33 else none⟩ : ChainEnv).get_top true
        = some ⟨10, 3⟩)
    ∧ pushFrontHeights (full_node.run
          ⟨fun b => some (if b then ⟨10, 3⟩ else ⟨9, 2⟩), 1,
            fun h => if h = 3 then some 33 else none⟩
          ⟨false, [], ⟨0, 0⟩, ⟨0, 0⟩⟩ 77).1
      = ((List.range'
            ((⟨fun b => some (if b then ⟨10, 3⟩ else ⟨9, 2⟩), 1,
                fun h => if h = 3 then some 33 else none⟩ :
              ChainEnv).top_valid_height + 1)
            ((⟨10, 3⟩ : Checkpoint).height
              - (⟨fun b => some (if b then ⟨10, 3⟩ else ⟨9, 2⟩), 1,
                  fun h => if h = 3 then some 33 else none⟩ :
                ChainEnv).top_valid_height)).reverse).filter
          (fun h =>
            ((⟨fun b => some (if b then ⟨10, 3⟩ else ⟨9, 2⟩), 1,
                fun h => if h = 3 then some 33 else none⟩ :
              ChainEnv).get_downloadable h).isSome
            || h == (⟨fun b => some (if b then ⟨10, 3⟩ else ⟨9, 2⟩), 1,
                  fun h => if h = 3 then some 33 else none⟩ :
                ChainEnv).top_valid_height + 1) :=
  ⟨rfl, rfl, rfl,
   reseed_push_front_heights
     ⟨fun b => some (if b then ⟨10, 3⟩ else ⟨9, 2⟩), 1,
       fun h => if h = 3 then some 33 else none⟩
     ⟨false, [], ⟨0, 0⟩, ⟨0, 0⟩⟩ 77 ⟨9, 2⟩ ⟨10, 3⟩ rfl rfl rfl⟩

/-- C8 (amended): whenever the candidate chain height strictly exceeds
top_valid, re-seeding during a successful run leaves at least one
reservation at height top_valid + 1 in the queue. -/
theorem reseed_start_height_pushed (env : ChainEnv) (st : NodeState)
    (hash0 : Hash) (confirmed candidate : Checkpoint)
    (hst : st.stopped = false)
    (hc : env.get_top false = some confirmed)
    (hk : env.get_top true = some candidate)
    (hgt : env.top_valid_height < candidate.height) :
    ∃ h, (⟨h, env.top_valid_height + 1⟩ : Checkpoint)
      ∈ (full_node.run env st hash0).2.reservations := by
  obtain ⟨h, hmem⟩ := full_node.reseedCalls_start_mem env
    env.top_valid_height (candidate.height - env.top_valid_height) hash0
    (by omega)
  refine ⟨h, ?_⟩
  have hres : (full_node.run env st hash0).2.reservations
      = (full_node.reseedCalls env env.top_valid_height
          (candidate.height - env.top_valid_height) hash0).foldl
          (fun q p => Reservations.push_front p.1 p.2 q)
          st.reservations := by
    simp [full_node.run, full_node.handle_running, hst, hc, hk]
  rw [hres, full_node.foldl_push_front]
  refine List.mem_append.mpr (Or.inl ?_)
  exact List.mem_map.mpr
    ⟨(h, env.top_valid_height + 1), List.mem_reverse.mpr hmem, rfl⟩

/-- C8 witness: candidate height 3 with top_valid 1 yields a reservation
at height 2. -/
theorem reseed_start_height_pushed_witness :
    ((⟨false, [], ⟨0, 0⟩, ⟨0, 0⟩⟩ : NodeState).stopped = false)
    ∧ ((⟨fun b => some (if b then ⟨10, 3⟩ else ⟨9, 2⟩), 1,
          fun _ => none⟩ : ChainEnv).get_top false = some ⟨9, 2⟩)
    ∧ ((⟨fun b => some (if b then ⟨10, 3⟩ else ⟨9, 2⟩), 1,
          fun _ => none⟩ : ChainEnv).get_top true = some ⟨10, 3⟩)
    ∧ ((⟨fun b => some (if b then ⟨10, 3⟩ else ⟨9, 2⟩), 1,
          fun _ => none⟩ : ChainEnv).top_valid_height
        < (⟨10, 3⟩ : Checkpoint).height)
    ∧ (∃ h, (⟨h, (⟨fun b => some (if b then ⟨10, 3⟩ else ⟨9, 2⟩), 1,
            fun _ => none⟩ : ChainEnv).top_valid_height + 1⟩ : Checkpoint)
        ∈ (full_node.run
            ⟨fun b => some (if b then ⟨10, 3⟩ else ⟨9, 2⟩), 1, fun _ => none⟩
            ⟨false, [], ⟨0, 0⟩, ⟨0, 0⟩⟩ 77).2.reservations) :=
  ⟨rfl, rfl, rfl, by decide,
   reseed_start_height_pushed
     ⟨fun b => some (if b then ⟨10, 3⟩ else ⟨9, 2⟩), 1, fun _ => none⟩
     ⟨false, [], ⟨0, 0⟩, ⟨0, 0⟩⟩ 77 ⟨9, 2⟩ ⟨10, 3⟩ rfl rfl rfl
     (by decide)⟩

/-- C8 counterexample: with candidate height N = 0 and top_valid M = 0
(spec scenario S1, a cold start), the re-seed loop runs zero times and the
queue holds no reservation at height M + 1 = 1, so the claim fails as
stated for every pair (N, M). -/
theorem reseed_start_height_cex :
    ¬ ∃ h : Hash, (⟨h, 1⟩ : Checkpoint)
      ∈ (full_node.run ⟨fun _ => some ⟨0, 0⟩, 0, fun _ => none⟩
          ⟨false, [], ⟨0, 0⟩, ⟨0, 0⟩⟩ 0).2.reservations := by
  rintro ⟨h, hmem⟩
  have hres : (full_node.run ⟨fun _ => some ⟨0, 0⟩, 0, fun _ => none⟩
      ⟨false, [], ⟨0, 0⟩, ⟨0, 0⟩⟩ 0).2.reservations = [] := rfl
  rw [hres] at hmem
  exact List.not_mem_nil _ hmem

/-- C7: full_node::stop stops the network first, then the chain, and
returns the conjunction of the two results; full_node::close invokes stop
first, returns false without closing either subsystem when stop fails,
and otherwise returns the conjunction of the two close results. -/
theorem stop_close_conjunction (a b c d : Bool) :
    (full_node.stop a b).1 = [Event.networkStop, Event.chainStop]
    ∧ (full_node.stop a b).2 = (a && b)
    ∧ (full_node.close a b c d).1.take 2
        = [Event.networkStop, Event.chainStop]
    ∧ (full_node.close a b c d).2 = (a && b && (c && d))
    ∧ (Event.networkClose ∈ (full_node.close a b c d).1 ↔ (a && b) = true)
    ∧ (Event.chainClose ∈ (full_node.close a b c d).1 ↔ (a && b) = true) := by
  cases a <;> cases b <;> cases c <;> cases d <;> decide

/-- C3 witness: a stopped node whose chain fails to start. -/
theorem start_invokes_handler_once_witness :
    handlerCalls (full_node.start true false) = 1
    ∧ (Event.chainStart ∈ full_node.start true false ↔ true = true)
    ∧ (Event.networkStart ∈ full_node.start true false
        ↔ (true = true ∧ false = true))
    ∧ (Event.invokeHandler .operationFailed ∈ full_node.start true false
        ↔ (true = false ∨ false = false)) :=
  start_invokes_handler_once true false

/-- C7 witness: a failing network stop prevents both close calls. -/
theorem stop_close_conjunction_witness :
    (full_node.stop false true).1 = [Event.networkStop, Event.chainStop]
    ∧ (full_node.stop false true).2 = (false && true)
    ∧ (full_node.close false true true true).1.take 2
        = [Event.networkStop, Event.chainStop]
    ∧ (full_node.close false true true true).2
        = (false && true && (true && true))
    ∧ (Event.networkClose ∈ (full_node.close false true true true).1
        ↔ (false && true) = true)
    ∧ (Event.chainClose ∈ (full_node.close false true true true).1
        ↔ (false && true) = true) :=
  stop_close_conjunction false true true true

/-- C9: evaluating the executor model at a failed start followed by a
clean node stop: executor::handle_seeded logs the start failure and
raises the interrupt flag, yet bc::main exits with status 0
(console_result::okay), because executor::run returns wait_on_stop's
result, which depends only on the code the node stop handler delivers.
The claim (and spec §7) requires a non-zero exit status here. -/
theorem start_failure_exit_status :
    handle_seeded Code.operationFailed
        = ⟨true, true, false⟩
    ∧ main_exit Code.operationFailed Code.success = 0 :=
  ⟨rfl, rfl⟩

/-- C10: the network context is mainnet when neither flag is set, testnet
whenever the testnet flag is set (taking precedence over regtest), and
regtest only when the regtest flag is set alone. -/
theorem network_context_selection (t r : Bool) :
    select_context r t
      = (if t then NetContext.testnet
         else if r then NetContext.regtest
         else NetContext.mainnet) := by
  cases t <;> cases r <;> rfl

/-- C10 witness: both flags set selects testnet. -/
theorem network_context_selection_witness :
    select_context true true
      = (if true then NetContext.testnet
         else if true then NetContext.regtest
         else NetContext.mainnet) :=
  network_context_selection true true

end LibbitcoinNode
